import Mathlib

/-!
Verification of the Afterlife protocol core (tag index, ledger query client,
document fetch client, latest-state resolver, schema validators, chain
verifier) against its TypeScript/JavaScript sources.

Conventions of the embedding:
* JavaScript `Map` objects are modelled as insertion-ordered association
  lists: `Map.set` on an existing key updates the entry in place, on a new
  key it appends; `Map.values()` iterates in key-insertion order.
* JavaScript numbers that only ever hold block heights / timestamps are
  modelled as `Int` (no fractional heights occur in the sources).
* Async functions that can `throw` are modelled in `Except String`;
  the network is an explicit "world" argument (a pure oracle), so every
  run of a function on the same world is literally the same value.
-/

namespace Afterlife

/-! ## Tag index — src/lib/tags.ts -/

structure ArweaveTag where
  name : String
  value : String
deriving DecidableEq, Repr

/-- Insertion-ordered association list, our model of a JS `Map`. -/
abbrev AList (α : Type) := List (String × α)

/-- `Map.get`. -/
def aGet {α : Type} : AList α → String → Option α
  | [], _ => none
  | (k, v) :: rest, key => if k = key then some v else aGet rest key

/-- `Map.set`: update in place when the key exists, append otherwise. -/
def aSet {α : Type} : AList α → String → α → AList α
  | [], key, v => [(key, v)]
  | (k, w) :: rest, key, v =>
      if k = key then (k, v) :: rest else (k, w) :: aSet rest key v

/-- Key list of a map, in insertion order. -/
def aKeys {α : Type} (m : AList α) : List String := m.map Prod.fst

abbrev TagMap := AList (List String)

/-- One loop iteration of `tagsToMap`. -/
def tagStep (map : TagMap) (tag : ArweaveTag) : TagMap :=
  aSet map tag.name ((aGet map tag.name).getD [] ++ [tag.value])

/-- `tagsToMap` from src/lib/tags.ts: groups tag values by name, preserving
both the first-seen order of names and the order of values per name. -/
def tagsToMap (tags : List ArweaveTag) : TagMap :=
  tags.foldl tagStep []

/-- `tagFirst` from src/lib/tags.ts. -/
def tagFirst (tags : TagMap) (name : String) : Option String :=
  (aGet tags name).bind List.head?

/-! ## Gateways — `getGateways` from src/lib/arweave.ts.
The `localStorage` override is passed explicitly: `none` models both an
absent key and an environment without `localStorage`. -/

def DEFAULT_GATEWAYS : List String := ["https://arweave.net", "https://ar-io.dev"]

/-- JS `String.prototype.trim`: strip leading and trailing whitespace.
Implemented over the character list so it evaluates in the kernel. -/
def jsTrim (s : String) : String :=
  String.mk (((s.data.dropWhile Char.isWhitespace).reverse.dropWhile Char.isWhitespace).reverse)

def getGateways (override : Option String) : List String :=
  match override with
  | none => DEFAULT_GATEWAYS
  | some s =>
      let cleaned := jsTrim s
      if cleaned = "" then DEFAULT_GATEWAYS else cleaned :: DEFAULT_GATEWAYS

/-! ## Latest-state resolver — `groupLatestHeadsBySelfId` from src/lib/arweave.ts -/

structure ArweaveBlock where
  height : Int
  timestamp : Int
deriving DecidableEq, Repr

structure ArweaveTxNode where
  id : String
  ownerAddress : String
  block : Option ArweaveBlock
  tags : List ArweaveTag
deriving DecidableEq, Repr

structure ArweaveTxEdge where
  cursor : String
  node : ArweaveTxNode
deriving DecidableEq, Repr

/-- The identity key the resolver groups by:
`tagFirst(tagsToMap(node.tags), "Self-Id") ?? ""`. -/
def selfIdOf (node : ArweaveTxNode) : String :=
  (tagFirst (tagsToMap node.tags) "Self-Id").getD ""

/-- `node.block?.height ?? -1`. -/
def heightOf (node : ArweaveTxNode) : Int :=
  match node.block with
  | some b => b.height
  | none => -1

/-- One iteration of the resolver's grouping loop: skip records whose
Self-Id resolves falsy, otherwise keep the strictly higher record. -/
def groupStep (byId : AList ArweaveTxNode) (edge : ArweaveTxEdge) : AList ArweaveTxNode :=
  if selfIdOf edge.node = "" then byId
  else
    match aGet byId (selfIdOf edge.node) with
    | none => aSet byId (selfIdOf edge.node) edge.node
    | some existing =>
        if heightOf edge.node > heightOf existing then
          aSet byId (selfIdOf edge.node) edge.node
        else byId

/-- Stable insertion into a height-descending list: the new element goes
after every element of height `≥` its own. -/
def sortInsertDesc (x : ArweaveTxNode) : List ArweaveTxNode → List ArweaveTxNode
  | [] => [x]
  | y :: ys => if heightOf y < heightOf x then x :: y :: ys else y :: sortInsertDesc x ys

/-- Stable descending sort by block height. Models ES2019
`Array.prototype.sort` (stability guaranteed) with the source comparator
`(b.block?.height ?? -1) - (a.block?.height ?? -1)`. -/
def sortByHeightDesc (l : List ArweaveTxNode) : List ArweaveTxNode :=
  l.foldl (fun acc x => sortInsertDesc x acc) []

/-- `groupLatestHeadsBySelfId` from src/lib/arweave.ts. -/
def groupLatestHeadsBySelfId (edges : List ArweaveTxEdge) : List ArweaveTxNode :=
  sortByHeightDesc ((edges.foldl groupStep []).map Prod.snd)

/-! ### What the grouping loop computes per key -/

/-- Folding `bestStep s` over the input computes, for identity `s`, the
first record attaining the maximal height among records with that identity. -/
def bestStep (s : String) (cur : Option ArweaveTxNode) (e : ArweaveTxEdge) :
    Option ArweaveTxNode :=
  if selfIdOf e.node = s then
    match cur with
    | none => some e.node
    | some x => if heightOf e.node > heightOf x then some e.node else some x
  else cur

def runBest (s : String) (cur : Option ArweaveTxNode)
    (edges : List ArweaveTxEdge) : Option ArweaveTxNode :=
  edges.foldl (bestStep s) cur

/-! ### Invariants of the grouping map -/

/-- Every stored entry is keyed by its own (non-falsy) Self-Id. -/
def GroupInv (m : AList ArweaveTxNode) : Prop :=
  ∀ p ∈ m, selfIdOf p.2 = p.1 ∧ p.1 ≠ ""

/-! ## JSON documents

Payloads flowing through the validators are untyped JSON values. Numbers
only ever feed truthiness checks here, so `Int` suffices. -/

inductive Json where
  | null
  | bool (b : Bool)
  | num (n : Int)
  | str (s : String)
  | arr (items : List Json)
  | obj (fields : List (String × Json))

/-- JS member access `j?.key`: a string-keyed lookup yields `undefined`
(here `none`) on anything but a plain object. -/
def Json.get? : Json → String → Option Json
  | .obj fields, key => aGet fields key
  | _, _ => none

/-- `typeof j.key === "string" ? j.key : undefined`. -/
def getStr? (j : Json) (key : String) : Option String :=
  match j.get? key with
  | some (.str s) => some s
  | _ => none

/-- `Array.isArray(j.key) ? j.key : undefined`. -/
def getArr? (j : Json) (key : String) : Option (List Json) :=
  match j.get? key with
  | some (.arr xs) => some xs
  | _ => none

/-- JS falsiness of a JSON value. -/
def jsFalsy : Json → Bool
  | .null => true
  | .bool b => !b
  | .num n => n == 0
  | .str s => s == ""
  | _ => false

/-- `typeof j === "object"` (true for objects, arrays and null). -/
def jsTypeofObject : Json → Bool
  | .obj _ => true
  | .arr _ => true
  | .null => true
  | _ => false

/-- `j?.key === s` for a string literal `s`. -/
def isStr (j : Option Json) (s : String) : Bool :=
  match j with
  | some (.str t) => t == s
  | _ => false

/-- `isRecord` from src/lib/self.ts: `typeof v === "object" && v !== null`
(arrays qualify). -/
def isRecord : Json → Bool
  | .obj _ => true
  | .arr _ => true
  | _ => false

/-- `ids.has(x)` where `x` may be `undefined` or a non-string. -/
def memStrOpt (ids : List String) : Option String → Bool
  | some s => ids.contains s
  | none => false

def EDGE_TYPES : List String :=
  ["supports", "contradicts", "refines", "depends-on", "derived-from"]

/-! ## Strict validators — skills/afterlife-verify/scripts/verify.mjs -/

/-- `validateHeadPayload`: error accumulation, no early exit. -/
def validateHeadPayload (payload : Json) : List String :=
  (if jsFalsy payload || !jsTypeofObject payload then
    ["SelfHead payload is not an object"] else []) ++
  (if !(isStr (payload.get? "schema") "afterlife.selfhead@1") then
    ["SelfHead schema must be afterlife.selfhead@1"] else []) ++
  (if (getStr? payload "self_id").isNone then ["SelfHead.self_id missing"] else []) ++
  (if (getStr? payload "name").isNone then ["SelfHead.name missing"] else []) ++
  (if (getStr? payload "snapshot_tx").isNone then ["SelfHead.snapshot_tx missing"] else [])

/-- A well-shaped ideas entry: a record with string `idea_id` and `tx_id`. -/
def ideaItemValid (it : Json) : Bool :=
  !(jsFalsy it) && jsTypeofObject it &&
    (getStr? it "idea_id").isSome && (getStr? it "tx_id").isSome

/-- The ideas loop of `validateSnapshotPayload`: accumulates errors and the
set of seen idea ids (a JS `Set`, modelled as a duplicate-free list). -/
def ideasScanAux : List String → List String → List Json → List String × List String
  | errs, ids, [] => (errs, ids)
  | errs, ids, it :: rest =>
      if ideaItemValid it then
        if ids.contains ((getStr? it "idea_id").getD "") then
          ideasScanAux
            (errs ++ ["Duplicate idea_id in snapshot: " ++ (getStr? it "idea_id").getD ""])
            ids rest
        else ideasScanAux errs (ids ++ [(getStr? it "idea_id").getD ""]) rest
      else ideasScanAux (errs ++ ["SelfSnapshot.ideas contains invalid item"]) ids rest

def ideasScan (items : List Json) : List String × List String :=
  ideasScanAux [] [] items

/-- The edges loop of `validateSnapshotPayload`. The source interpolates
the offending edge / type into the message; the embedding keeps fixed
message texts (the claims only concern which errors occur). -/
def edgesScanAux (ids : List String) : List String → List Json → List String
  | errs, [] => errs
  | errs, edge :: rest =>
      if jsFalsy edge || !jsTypeofObject edge then
        edgesScanAux ids (errs ++ ["SelfSnapshot.edges contains invalid item"]) rest
      else
        edgesScanAux ids
          ((if !(memStrOpt ids (getStr? edge "from_idea_id")) ||
               !(memStrOpt ids (getStr? edge "to_idea_id")) then
              errs ++ ["Edge references unknown idea ids"] else errs) ++
           (if !(memStrOpt EDGE_TYPES (getStr? edge "type")) then
              ["Invalid edge type"] else [])) rest

def edgesScan (ids : List String) (es : List Json) : List String :=
  edgesScanAux ids [] es

/-- `validateSnapshotPayload` from verify.mjs. -/
def validateSnapshotPayload (payload : Json) : List String :=
  ((if jsFalsy payload || !jsTypeofObject payload then
      ["SelfSnapshot payload is not an object"] else []) ++
   (if !(isStr (payload.get? "schema") "afterlife.snapshot@1") then
      ["SelfSnapshot schema must be afterlife.snapshot@1"] else []) ++
   (if (getStr? payload "self_id").isNone then ["SelfSnapshot.self_id missing"] else []) ++
   (if (match getArr? payload "ideas" with
        | some xs => xs.isEmpty
        | none => true) then ["SelfSnapshot.ideas missing/empty"] else [])) ++
  (match getArr? payload "ideas" with
   | some xs => (ideasScan xs).1
   | none => []) ++
  (match getArr? payload "edges" with
   | some es => edgesScan (match getArr? payload "ideas" with
       | some xs => (ideasScan xs).2
       | none => []) es
   | none => [])

/-! ## Lenient parser — `parseSelfSnapshot` from src/lib/self.ts -/

structure IdeaRef where
  idea_id : String
  tx_id : String
deriving DecidableEq, Repr

structure SnapEdge where
  from_idea_id : String
  to_idea_id : String
  type : String
deriving DecidableEq, Repr

/-- `SelfSnapshot` minus its constant `schema` discriminator. -/
structure SelfSnapshot where
  self_id : String
  parent_snapshot_tx : Option String
  ideas : List IdeaRef
  edges : Option (List SnapEdge)
  notes : Option String
  created_at : Option String
deriving DecidableEq, Repr

inductive ParseResult (α : Type) where
  | ok (value : α)
  | err (error : String)
deriving DecidableEq, Repr

/-- One ideas entry of the lenient parser: kept only when it is a record
with truthy (non-empty) string `idea_id` and `tx_id`. -/
def parseIdeaRef (idea : Json) : Option IdeaRef :=
  if isRecord idea then
    match getStr? idea "idea_id", getStr? idea "tx_id" with
    | some idea_id, some tx_id =>
        if idea_id != "" && tx_id != "" then some ⟨idea_id, tx_id⟩ else none
    | _, _ => none
  else none

/-- One edges entry of the lenient parser: kept when it is a record with
truthy string fields and an allowed type. Referential well-formedness of
the endpoints is NOT checked here. -/
def parseSnapshotEdge (edge : Json) : Option SnapEdge :=
  if isRecord edge then
    match getStr? edge "from_idea_id", getStr? edge "to_idea_id", getStr? edge "type" with
    | some f, some t, some ty =>
        if f != "" && t != "" && ty != "" && EDGE_TYPES.contains ty then
          some ⟨f, t, ty⟩
        else none
    | _, _, _ => none
  else none

def parseSelfSnapshot (j : Json) : ParseResult SelfSnapshot :=
  if !isRecord j then .err "SelfSnapshot is not an object"
  else if !(isStr (j.get? "schema") "afterlife.snapshot@1") then
    .err ("Unexpected SelfSnapshot schema: " ++ ((getStr? j "schema").getD "missing"))
  else if (getStr? j "self_id").getD "" = "" then .err "SelfSnapshot.self_id missing"
  else
    match getArr? j "ideas" with
    | none => .err "SelfSnapshot.ideas missing"
    | some ideasRaw =>
        if (ideasRaw.filterMap parseIdeaRef).isEmpty then
          .err "SelfSnapshot.ideas empty/invalid"
        else
          .ok { self_id := (getStr? j "self_id").getD ""
                parent_snapshot_tx := getStr? j "parent_snapshot_tx"
                ideas := ideasRaw.filterMap parseIdeaRef
                edges := (getArr? j "edges").map (fun es => es.filterMap parseSnapshotEdge)
                notes := getStr? j "notes"
                created_at := getStr? j "created_at" }

/-! ### Soundness of snapshot validation -/

/-- The idea ids of the well-shaped entries, in order. -/
def validIdeaIds (items : List Json) : List String :=
  items.filterMap (fun it =>
    if ideaItemValid it then some ((getStr? it "idea_id").getD "") else none)

/-- A snapshot whose ideas list declares `a` twice. -/
def dupSnapJson : Json :=
  .obj [("schema", .str "afterlife.snapshot@1"),
        ("self_id", .str "s"),
        ("ideas", .arr [.obj [("idea_id", .str "a"), ("tx_id", .str "t1")],
                        .obj [("idea_id", .str "a"), ("tx_id", .str "t2")]])]

/-- A snapshot declaring only idea `a` but with an edge to undeclared `b`. -/
def danglingEdgeSnap : Json :=
  .obj [("schema", .str "afterlife.snapshot@1"),
        ("self_id", .str "s"),
        ("ideas", .arr [.obj [("idea_id", .str "a"), ("tx_id", .str "t")]]),
        ("edges", .arr [.obj [("from_idea_id", .str "a"), ("to_idea_id", .str "b"),
                              ("type", .str "supports")]])]

/-- A well-formed snapshot with one idea and no edges. -/
def goodSnapJson : Json :=
  .obj [("schema", .str "afterlife.snapshot@1"),
        ("self_id", .str "s"),
        ("ideas", .arr [.obj [("idea_id", .str "a"), ("tx_id", .str "t")]])]

/-! ## Ledger query client — `graphqlRequest` from src/lib/arweave.ts

The network is a per-endpoint oracle describing what one POST of the query
yields. The fixed 120 ms inter-attempt sleep only spends time and is not
modelled. -/

inductive GqlOutcome (T : Type) where
  | netError (msg : String)
  | httpError (status : Nat)
  | badJson (msg : String)
  | envelope (errors : List String) (data_ : Option T)

/-- The body of one loop iteration of `graphqlRequest`: everything up to
(and including) `return json.data`, with every `throw` caught as  an
`Except.error` carrying the message. -/
def attemptGql {T : Type} (endpoint : String) : GqlOutcome T → Except String T
  | .netError m => .error m
  | .httpError s => .error ("GraphQL " ++ endpoint ++ " HTTP " ++ toString s)
  | .badJson m => .error m
  | .envelope errs d =>
      if errs.length ≠ 0 then .error (String.intercalate "; " errs)
      else
        match d with
        | none => .error ("GraphQL " ++ endpoint ++ " missing data")
        | some t => .ok t

/-- The fallback loop with its running `lastErr`, also counting attempts. -/
def graphqlRequestGo {T : Type} (world : String → GqlOutcome T)
    (lastErr : Option String) : List String → Except String T × Nat
  | [] => (.error (lastErr.getD "GraphQL request failed"), 0)
  | e :: rest =>
      match attemptGql e (world e) with
      | .ok t => (.ok t, 1)
      | .error m =>
          ((graphqlRequestGo world (some m) rest).1,
           (graphqlRequestGo world (some m) rest).2 + 1)

def graphqlRequest {T : Type} (world : String → GqlOutcome T)
    (endpoints : List String) : Except String T × Nat :=
  graphqlRequestGo world none endpoints

/-- The `{ transactions: { edges } }` result shape of the head queries. -/
structure TransactionsData where
  edges : List ArweaveTxEdge
deriving DecidableEq, Repr

/-! ## Document fetch client — `fetchTxJson` from src/lib/arweave.ts
(the same loop as `fetchJsonByTxId` in verify.mjs)

A gateway's outcome for the requested tx: the GET may throw, return a
non-success status, or return a body on which `JSON.parse` either yields a
value or throws. -/

inductive GatewayOutcome where
  | netError (msg : String)
  | httpError (status : Nat)
  | bodyJson (j : Json)
  | bodyUnparseable (msg : String)

/-- One loop iteration of `fetchTxJson`: note that `JSON.parse` runs
INSIDE the try, so a parse failure is caught like a transport failure. -/
def attemptFetch (gw : String) : GatewayOutcome → Except String Json
  | .netError m => .error m
  | .httpError s => .error ("Gateway " ++ gw ++ " HTTP " ++ toString s)
  | .bodyJson j => .ok j
  | .bodyUnparseable m => .error m

def fetchTxJsonGo (world : String → GatewayOutcome)
    (lastErr : Option String) : List String → Except String Json × Nat
  | [] => (.error (lastErr.getD "Failed to fetch tx JSON"), 0)
  | gw :: rest =>
      match attemptFetch gw (world gw) with
      | .ok j => (.ok j, 1)
      | .error m =>
          ((fetchTxJsonGo world (some m) rest).1,
           (fetchTxJsonGo world (some m) rest).2 + 1)

/-- `fetchTxJson` for one tx id; the world is the per-gateway outcome of
GETting that tx. The pair's second component counts gateway attempts. -/
def fetchTxJson (world : String → GatewayOutcome)
    (gateways : List String) : Except String Json × Nat :=
  fetchTxJsonGo world none gateways

/-! ## Chain verifier — verify.mjs

The network behind `verifySelf`/`verifyTx` is a pure oracle:
* `meta tx` — what `getTxMeta([tx])` finds in the GraphQL index
  (`none` = the tx is not indexed, giving the "Tx not found" report);
* `payload tx` — what `fetchJsonByTxId(tx)` yields (`none` = the fetch
  throws after exhausting all gateways; the success case carries the
  parsed JSON);
* `latestHead selfId` — the head tx id `getLatestHead` resolves.
The GraphQL transport itself is assumed reachable here; its own
endpoint-fallback behavior is modelled by `graphqlRequest` above. -/

structure TxMeta where
  id : String
  tags : List ArweaveTag
deriving Repr

structure VerifyWorld where
  meta : String → Option TxMeta
  payload : String → Option Json
  latestHead : String → Option String

/-- `tagFirst(tags, name) === s`. -/
def strOptEq (o : Option String) (s : String) : Bool :=
  match o with
  | some t => t == s
  | none => false

/-- `hasAfterlifeNamespace` from verify.mjs. -/
def hasAfterlifeNamespace (tags : TagMap) : Bool :=
  strOptEq (tagFirst tags "App-Name") "ar//afterlife" &&
  strOptEq (tagFirst tags "App-Tag") "afterlife" &&
  strOptEq (tagFirst tags "Schema-Version") "1"

/-- The per-tx report (the JS object's echo of the tag map is omitted
as pure output decoration). In the "Tx not found" early return the JS
object carries no `tx_id`/`entity` fields; they are `txId`/`none` here. -/
structure TxReport where
  ok : Bool
  tx_id : String
  entity : Option String
  errors : List String
  warnings : List String
deriving DecidableEq, Repr

/-- The pure tail of `verifyTx` once meta and payload are in hand. -/
def verifyTxReport (txId : String) (tags : TagMap) (payload : Json) : TxReport :=
  let entity := tagFirst tags "Entity"
  let nsErrs :=
    if !(hasAfterlifeNamespace tags) then
      ["Missing required Afterlife namespace tags (App-Name/App-Tag/Schema-Version)"]
    else []
  let entErrs := if (entity.getD "") = "" then ["Missing Entity tag"] else []
  let dispErrs :=
    if entity = some "SelfHead" then validateHeadPayload payload
    else if entity = some "SelfSnapshot" then validateSnapshotPayload payload
    else []
  let dispWarns :=
    if entity = some "SelfHead" ∨ entity = some "SelfSnapshot" then []
    else if entity = some "Idea" then
      (if !(isStr (payload.get? "schema") "afterlife.idea@1") then
        ["Idea schema is not afterlife.idea@1"] else []) ++
      (if (getStr? payload "idea_id").isNone then
        ["Idea payload missing idea_id"] else [])
    else ["Unknown or missing entity for tx " ++ txId]
  { ok := (nsErrs ++ entErrs ++ dispErrs).isEmpty, tx_id := txId,
    entity := entity, errors := nsErrs ++ entErrs ++ dispErrs,
    warnings := dispWarns }

/-- `verifyTx` from verify.mjs. An `Except.error` is a thrown exception
(here: the payload fetch exhausting all gateways). -/
def verifyTx (w : VerifyWorld) (txId : String) : Except String TxReport :=
  match w.meta txId with
  | none =>
      .ok { ok := false, tx_id := txId, entity := none,
            errors := ["Tx not found: " ++ txId], warnings := [] }
  | some meta =>
      match w.payload txId with
      | none => .error ("Failed to fetch tx " ++ txId)
      | some payload =>
          .ok (verifyTxReport txId (tagsToMap meta.tags) payload)

/-- `ref.idea_id || ref.tx_id`-style truthy string access (non-string
truthy values do not occur in the scenarios modelled). -/
def truthyStr? (j : Json) (key : String) : Option String :=
  match getStr? j key with
  | some s => if s = "" then none else some s
  | none => none

structure IdeaReport where
  idea_id : Option String
  tx_id : String
  ok : Bool
  errors : List String
  warnings : List String
deriving DecidableEq, Repr

/-- Early returns in verify.mjs omit some report fields; omitted fields
appear here as `none` / `false` / `0` / `[]`. -/
structure SelfReport where
  ok : Bool
  self_id : String
  discoverable : Bool
  head_tx : Option String
  snapshot_tx : Option String
  idea_count : Nat
  idea_reports : List IdeaReport
  errors : List String
  warnings : List String
deriving DecidableEq, Repr

/-- The `for (const ref of ideaRefs)` loop of `verifySelf`: each idea is
verified independently, its failures folded into the aggregate error list
and its own report — but a THROWN `verifyTx` (unfetchable payload of an
indexed tx) propagates and aborts the whole walk. -/
def ideaLoop (w : VerifyWorld) :
    List Json → List String × List String × List IdeaReport →
      Except String (List String × List String × List IdeaReport)
  | [], acc => .ok acc
  | ref :: rest, acc =>
      match truthyStr? ref "tx_id" with
      | none => ideaLoop w rest acc
      | some txid =>
          match verifyTx w txid with
          | .error e => .error e
          | .ok report =>
              ideaLoop w rest
                (acc.1 ++ (if !report.ok then
                    report.errors.map (fun e =>
                      "Idea " ++ ((truthyStr? ref "idea_id").getD txid) ++ ": " ++ e)
                  else []),
                 acc.2.1 ++ report.warnings.map (fun s =>
                    "Idea " ++ ((truthyStr? ref "idea_id").getD txid) ++ ": " ++ s),
                 acc.2.2 ++ [{ idea_id := truthyStr? ref "idea_id", tx_id := txid,
                               ok := report.ok, errors := report.errors,
                               warnings := report.warnings }])

/-- `verifySelf` from verify.mjs. -/
def verifySelf (w : VerifyWorld) (selfId : String) : Except String SelfReport :=
  match w.latestHead selfId with
  | none =>
      .ok { ok := false, self_id := selfId, discoverable := false,
            head_tx := none, snapshot_tx := none, idea_count := 0,
            idea_reports := [],
            errors := ["No discoverable SelfHead found for Self-Id"], warnings := [] }
  | some headId =>
      if headId = "" then
        .ok { ok := false, self_id := selfId, discoverable := false,
              head_tx := none, snapshot_tx := none, idea_count := 0,
              idea_reports := [],
              errors := ["No discoverable SelfHead found for Self-Id"], warnings := [] }
      else
        match verifyTx w headId with
        | .error e => .error e
        | .ok head =>
            match w.payload headId with
            | none => .error ("Failed to fetch tx " ++ headId)
            | some headPayload =>
                match getStr? headPayload "snapshot_tx" with
                | none =>
                    .ok { ok := false, self_id := selfId, discoverable := false,
                          head_tx := some headId, snapshot_tx := none,
                          idea_count := 0, idea_reports := [],
                          errors := (if !head.ok then
                              head.errors.map (fun e => "Head: " ++ e) else []) ++
                            ["Head payload missing snapshot_tx"],
                          warnings := head.warnings.map (fun s => "Head: " ++ s) }
                | some snapTx =>
                    match verifyTx w snapTx with
                    | .error e => .error e
                    | .ok snapshot =>
                        match w.payload snapTx with
                        | none => .error ("Failed to fetch tx " ++ snapTx)
                        | some snapPayload =>
                            match ideaLoop w
                                ((getArr? snapPayload "ideas").getD [])
                                ((if !head.ok then
                                    head.errors.map (fun e => "Head: " ++ e)
                                  else []) ++
                                  (if !snapshot.ok then
                                    snapshot.errors.map (fun e => "Snapshot: " ++ e)
                                  else []),
                                 head.warnings.map (fun s => "Head: " ++ s) ++
                                  snapshot.warnings.map (fun s => "Snapshot: " ++ s),
                                 []) with
                            | .error e => .error e
                            | .ok acc =>
                                .ok { ok := acc.1.isEmpty, self_id := selfId,
                                      discoverable := true, head_tx := some headId,
                                      snapshot_tx := some snapTx,
                                      idea_count := acc.2.2.length,
                                      idea_reports := acc.2.2, errors := acc.1,
                                      warnings := acc.2.1 }

/-! ### The two-idea chain scenario -/

/-- The required namespace tags plus an Entity tag. -/
def nsTagsWith (entity : String) : List ArweaveTag :=
  [⟨"App-Name", "ar//afterlife"⟩, ⟨"App-Tag", "afterlife"⟩,
   ⟨"Schema-Version", "1"⟩, ⟨"Entity", entity⟩]

def chainHeadJson : Json :=
  .obj [("schema", .str "afterlife.selfhead@1"), ("self_id", .str "self-1"),
        ("name", .str "n"), ("snapshot_tx", .str "SNAP")]

def chainSnapJson : Json :=
  .obj [("schema", .str "afterlife.snapshot@1"), ("self_id", .str "self-1"),
        ("ideas", .arr [.obj [("idea_id", .str "i1"), ("tx_id", .str "T1")],
                        .obj [("idea_id", .str "i2"), ("tx_id", .str "T2")]])]

def chainIdeaJson : Json :=
  .obj [("schema", .str "afterlife.idea@1"), ("idea_id", .str "i2")]

/-- Head → Snapshot → two Ideas, where idea tx `T1` is ABSENT from the
ledger index (`getTxMeta` finds nothing) and `T2` is fine. -/
def chainWorldMissingIdea : VerifyWorld where
  meta := fun tx =>
    if tx = "HEAD" then some ⟨"HEAD", nsTagsWith "SelfHead" ++ [⟨"Self-Id", "self-1"⟩]⟩
    else if tx = "SNAP" then some ⟨"SNAP", nsTagsWith "SelfSnapshot"⟩
    else if tx = "T2" then some ⟨"T2", nsTagsWith "Idea"⟩
    else none
  payload := fun tx =>
    if tx = "HEAD" then some chainHeadJson
    else if tx = "SNAP" then some chainSnapJson
    else if tx = "T2" then some chainIdeaJson
    else none
  latestHead := fun sid => if sid = "self-1" then some "HEAD" else none

/-- Same chain, but `T1` IS indexed while its payload fetch throws
(all gateways fail for it). -/
def chainWorldFetchThrow : VerifyWorld where
  meta := fun tx =>
    if tx = "HEAD" then some ⟨"HEAD", nsTagsWith "SelfHead" ++ [⟨"Self-Id", "self-1"⟩]⟩
    else if tx = "SNAP" then some ⟨"SNAP", nsTagsWith "SelfSnapshot"⟩
    else if tx = "T1" then some ⟨"T1", nsTagsWith "Idea"⟩
    else if tx = "T2" then some ⟨"T2", nsTagsWith "Idea"⟩
    else none
  payload := fun tx =>
    if tx = "HEAD" then some chainHeadJson
    else if tx = "SNAP" then some chainSnapJson
    else if tx = "T2" then some chainIdeaJson
    else none
  latestHead := fun sid => if sid = "self-1" then some "HEAD" else none

/-! ## Theorems -/

/-! ### Basic association-list lemmas -/

theorem aGet_aSet_self {α : Type} (m : AList α) (k : String) (v : α) :
    aGet (aSet m k v) k = some v := by
  induction m with
  | nil => simp [aSet, aGet]
  | cons hd tl ih =>
      obtain ⟨k', w⟩ := hd
      by_cases h : k' = k
      · simp [aSet, aGet, h]
      · simp [aSet, aGet, h, ih]

theorem aGet_aSet_ne {α : Type} (m : AList α) (k k' : String) (v : α)
    (h : k ≠ k') : aGet (aSet m k v) k' = aGet m k' := by
  induction m with
  | nil => simp [aSet, aGet, h]
  | cons hd tl ih =>
      obtain ⟨k'', w⟩ := hd
      by_cases h2 : k'' = k
      · subst h2
        simp [aSet, aGet, h]
      · simp [aSet, aGet, h2, ih]

theorem aKeys_aSet {α : Type} (m : AList α) (k : String) (v : α) :
    aKeys (aSet m k v) = if k ∈ aKeys m then aKeys m else aKeys m ++ [k] := by
  induction m with
  | nil => simp [aSet, aKeys]
  | cons hd tl ih =>
      obtain ⟨k', w⟩ := hd
      by_cases h : k' = k
      · subst h
        simp [aSet, aKeys]
      · have hk : ¬ k = k' := fun hk => h hk.symm
        simp only [aSet, if_neg h, aKeys, List.map_cons, List.mem_cons, hk, false_or]
        simp only [aKeys] at ih
        rw [ih]
        by_cases hmem : k ∈ List.map Prod.fst tl
        · simp [hmem]
        · simp [hmem]

theorem aGet_eq_none_iff {α : Type} (m : AList α) (k : String) :
    aGet m k = none ↔ k ∉ aKeys m := by
  induction m with
  | nil => simp [aGet, aKeys]
  | cons hd tl ih =>
      obtain ⟨k', w⟩ := hd
      by_cases h : k' = k
      · subst h
        simp [aGet, aKeys]
      · have hne : ¬ k = k' := fun hk => h hk.symm
        simp [aGet, aKeys, h, hne, ih]

theorem aGet_isSome_iff {α : Type} (m : AList α) (k : String) :
    (aGet m k).isSome ↔ k ∈ aKeys m := by
  rw [Option.isSome_iff_ne_none]
  constructor
  · intro h
    by_contra hmem
    exact h ((aGet_eq_none_iff m k).2 hmem)
  · intro h hn
    exact ((aGet_eq_none_iff m k).1 hn) h

theorem aKeys_nodup_aSet {α : Type} (m : AList α) (k : String) (v : α)
    (h : (aKeys m).Nodup) : (aKeys (aSet m k v)).Nodup := by
  rw [aKeys_aSet]
  by_cases hmem : k ∈ aKeys m
  · simpa [hmem] using h
  · simp only [hmem, if_false]
    simpa [List.nodup_append] using ⟨h, hmem⟩

theorem aGet_mem {α : Type} (m : AList α) (k : String) (v : α)
    (h : aGet m k = some v) : (k, v) ∈ m := by
  induction m with
  | nil => simp [aGet] at h
  | cons hd tl ih =>
      obtain ⟨k', w⟩ := hd
      by_cases hk : k' = k
      · subst hk
        simp [aGet] at h
        simp [h]
      · simp [aGet, hk] at h
        exact List.mem_cons_of_mem _ (ih h)

theorem mem_aGet {α : Type} (m : AList α) (k : String) (v : α)
    (hnd : (aKeys m).Nodup) (h : (k, v) ∈ m) : aGet m k = some v := by
  induction m with
  | nil => simp at h
  | cons hd tl ih =>
      obtain ⟨k', w⟩ := hd
      have hnd1 : k' ∉ aKeys tl := by
        have := (List.nodup_cons (a := k') (l := aKeys tl)).1 (by simpa [aKeys] using hnd)
        exact this.1
      have hnd2 : (aKeys tl).Nodup := by
        have := (List.nodup_cons (a := k') (l := aKeys tl)).1 (by simpa [aKeys] using hnd)
        exact this.2
      rcases List.mem_cons.1 h with heq | htl
      · cases heq
        simp [aGet]
      · have hk : ¬ k' = k := by
          rintro rfl
          exact hnd1 (by simpa [aKeys] using List.mem_map_of_mem Prod.fst htl)
        simp [aGet, hk]
        exact ih hnd2 htl

/-! ### Size of the tag index -/

theorem aKeys_foldl_tagStep_toFinset (tags : List ArweaveTag) : ∀ m : TagMap,
    (aKeys (tags.foldl tagStep m)).toFinset =
      (aKeys m).toFinset ∪ (tags.map ArweaveTag.name).toFinset := by
  induction tags with
  | nil => intro m; simp
  | cons t ts ih =>
      intro m
      rw [List.foldl_cons, ih]
      have hstep : (aKeys (tagStep m t)).toFinset = (aKeys m).toFinset ∪ {t.name} := by
        rw [tagStep, aKeys_aSet]
        by_cases h : t.name ∈ aKeys m
        · rw [if_pos h]
          have : t.name ∈ (aKeys m).toFinset := List.mem_toFinset.2 h
          rw [Finset.union_comm]
          exact (Finset.union_eq_right.2 (by simpa using this)).symm
        · rw [if_neg h]
          simp
      rw [hstep]
      ext x
      simp
      tauto

theorem aKeys_foldl_tagStep_nodup (tags : List ArweaveTag) : ∀ m : TagMap,
    (aKeys m).Nodup → (aKeys (tags.foldl tagStep m)).Nodup := by
  induction tags with
  | nil => intro m h; simpa using h
  | cons t ts ih => intro m h; exact ih _ (aKeys_nodup_aSet _ _ _ h)

theorem tagsToMap_length (tags : List ArweaveTag) :
    (tagsToMap tags).length = (tags.map ArweaveTag.name).dedup.length := by
  have hnd : (aKeys (tagsToMap tags)).Nodup :=
    aKeys_foldl_tagStep_nodup tags [] (by simp [aKeys])
  have hlen : (tagsToMap tags).length = (aKeys (tagsToMap tags)).length := by
    simp [aKeys]
  rw [hlen, ← List.toFinset_card_of_nodup hnd, tagsToMap,
    aKeys_foldl_tagStep_toFinset, ← List.card_toFinset]
  simp [aKeys]

/-- C9: building the index from `[(n,v1), (n,v2)]` and asking for the first
value of `n` yields `v1` (earliest-inserted), and the index size is the
number of distinct tag names, not the number of tags. -/
theorem tagIndex_roundtrip (n v1 v2 : String) (tags : List ArweaveTag) :
    tagFirst (tagsToMap [⟨n, v1⟩, ⟨n, v2⟩]) n = some v1 ∧
    (tagsToMap tags).length = (tags.map ArweaveTag.name).dedup.length := by
  refine ⟨?_, tagsToMap_length tags⟩
  simp [tagsToMap, tagFirst, tagStep, aGet, aSet]

/-- C10: `getGateways` never returns an empty list; with a present,
non-blank override the result is the trimmed override followed by the two
default gateways (defaults are kept, in order); with an absent or blank
override the result is exactly the default list. -/
theorem getGateways_spec (o : Option String) :
    getGateways o ≠ [] ∧
    (∀ s, o = some s → jsTrim s ≠ "" → getGateways o = jsTrim s :: DEFAULT_GATEWAYS) ∧
    ((o = none ∨ ∃ s, o = some s ∧ jsTrim s = "") → getGateways o = DEFAULT_GATEWAYS) ∧
    DEFAULT_GATEWAYS = ["https://arweave.net", "https://ar-io.dev"] := by
  refine ⟨?_, ?_, ?_, rfl⟩
  · cases o with
    | none => simp [getGateways, DEFAULT_GATEWAYS]
    | some s =>
        by_cases h : jsTrim s = "" <;>
          simp [getGateways, h, DEFAULT_GATEWAYS]
  · rintro s rfl h
    simp [getGateways, h]
  · rintro (rfl | ⟨s, rfl, h⟩)
    · rfl
    · simp [getGateways, h]

/-- Witness for C10 at a concrete override and at the absent override. -/
theorem getGateways_spec_witness :
    getGateways (some " https://gw.example ") = jsTrim " https://gw.example " :: DEFAULT_GATEWAYS ∧
    getGateways none = DEFAULT_GATEWAYS :=
  ⟨(getGateways_spec (some " https://gw.example ")).2.1 " https://gw.example " rfl (by decide),
   (getGateways_spec none).2.2.1 (Or.inl rfl)⟩

theorem aGet_groupStep (m : AList ArweaveTxNode) (e : ArweaveTxEdge)
    (s : String) (hs : s ≠ "") :
    aGet (groupStep m e) s = bestStep s (aGet m s) e := by
  rw [groupStep, bestStep.eq_def]
  by_cases h1 : selfIdOf e.node = s
  · rw [h1, if_neg hs, if_pos rfl]
    cases hcur : aGet m s with
    | none => simp [aGet_aSet_self]
    | some x =>
        by_cases hht : heightOf e.node > heightOf x
        · simp [hht, aGet_aSet_self]
        · simp [hht, hcur]
  · rw [if_neg h1]
    by_cases h0 : selfIdOf e.node = ""
    · rw [if_pos h0]
    · rw [if_neg h0]
      cases hcur : aGet m (selfIdOf e.node) with
      | none => simpa using aGet_aSet_ne m (selfIdOf e.node) s e.node h1
      | some x =>
          by_cases hht : heightOf e.node > heightOf x
          · simpa [hht] using aGet_aSet_ne m (selfIdOf e.node) s e.node h1
          · simp [hht]

theorem aGet_foldl_groupStep (edges : List ArweaveTxEdge) :
    ∀ m : AList ArweaveTxNode, ∀ s : String, s ≠ "" →
    aGet (edges.foldl groupStep m) s = runBest s (aGet m s) edges := by
  induction edges with
  | nil => intro m s _; rfl
  | cons e es ih =>
      intro m s hs
      rw [List.foldl_cons, ih _ s hs, aGet_groupStep m e s hs]
      rfl

theorem runBest_filter (s : String) (edges : List ArweaveTxEdge) :
    ∀ cur, runBest s cur edges =
      runBest s cur (edges.filter (fun e => selfIdOf e.node == s)) := by
  induction edges with
  | nil => intro cur; rfl
  | cons e es ih =>
      intro cur
      by_cases h : selfIdOf e.node = s
      · rw [runBest, List.foldl_cons, List.filter_cons_of_pos (by simpa using h),
          runBest, List.foldl_cons]
        exact ih _
      · have hstep : bestStep s cur e = cur := by
          rw [bestStep.eq_def, if_neg h]
        rw [runBest, List.foldl_cons, hstep,
          List.filter_cons_of_neg (by simpa using h)]
        exact ih cur

theorem runBest_some_isSome (s : String) (edges : List ArweaveTxEdge) :
    ∀ x, (runBest s (some x) edges).isSome := by
  induction edges with
  | nil => intro x; rfl
  | cons e es ih =>
      intro x
      rw [runBest, List.foldl_cons]
      by_cases h : selfIdOf e.node = s
      · rw [bestStep.eq_def, if_pos h]
        by_cases hht : heightOf e.node > heightOf x
        · simpa [hht] using ih e.node
        · simpa [hht] using ih x
      · rw [bestStep.eq_def, if_neg h]
        exact ih x

theorem runBest_isSome_of_mem (s : String) (edges : List ArweaveTxEdge)
    (hmem : ∃ e ∈ edges, selfIdOf e.node = s) :
    ∀ cur, (runBest s cur edges).isSome := by
  induction edges with
  | nil => simp at hmem
  | cons e es ih =>
      intro cur
      rw [runBest, List.foldl_cons]
      obtain ⟨e', he', hs'⟩ := hmem
      rcases List.mem_cons.1 he' with rfl | htl
      · rw [bestStep.eq_def, if_pos hs']
        cases cur with
        | none => exact runBest_some_isSome s es e'.node
        | some x =>
            by_cases hht : heightOf e'.node > heightOf x
            · simpa [hht] using runBest_some_isSome s es e'.node
            · simpa [hht] using runBest_some_isSome s es x
      · exact ih ⟨e', htl, hs'⟩ _

theorem runBest_isSome_src (s : String) (edges : List ArweaveTxEdge) :
    ∀ cur, (runBest s cur edges).isSome →
      cur.isSome ∨ ∃ e ∈ edges, selfIdOf e.node = s := by
  induction edges with
  | nil => intro cur h; exact Or.inl h
  | cons e es ih =>
      intro cur h
      rw [runBest, List.foldl_cons] at h
      by_cases hsid : selfIdOf e.node = s
      · exact Or.inr ⟨e, List.mem_cons_self e es, hsid⟩
      · rw [bestStep.eq_def, if_neg hsid] at h
        rcases ih cur h with hc | ⟨e', he', hs'⟩
        · exact Or.inl hc
        · exact Or.inr ⟨e', List.mem_cons_of_mem _ he', hs'⟩

theorem runBest_max (s : String) (edges : List ArweaveTxEdge) :
    ∀ cur n, runBest s cur edges = some n →
      (∀ e ∈ edges, selfIdOf e.node = s → heightOf e.node ≤ heightOf n) ∧
      (∀ x, cur = some x → heightOf x ≤ heightOf n) := by
  induction edges with
  | nil =>
      intro cur n h
      refine ⟨by simp, ?_⟩
      rintro x rfl
      cases h
      exact le_refl _
  | cons e es ih =>
      intro cur n h
      rw [runBest, List.foldl_cons] at h
      have ihh := ih (bestStep s cur e) n h
      constructor
      · intro e' he' hs'
        rcases List.mem_cons.1 he' with rfl | htl
        · -- the head record flows into the accumulator
          rw [bestStep.eq_def, if_pos hs'] at ihh
          cases cur with
          | none => exact ihh.2 e'.node rfl
          | some x =>
              by_cases hht : heightOf e'.node > heightOf x
              · exact ihh.2 e'.node (by simp [hht])
              · have hx := ihh.2 x (by simp [hht])
                exact le_trans (not_lt.1 hht) hx
        · exact ihh.1 e' htl hs'
      · rintro x rfl
        by_cases hsid : selfIdOf e.node = s
        · rw [bestStep.eq_def, if_pos hsid] at ihh
          by_cases hht : heightOf e.node > heightOf x
          · exact le_trans (le_of_lt hht) (ihh.2 e.node (by simp [hht]))
          · exact ihh.2 x (by simp [hht])
        · rw [bestStep.eq_def, if_neg hsid] at ihh
          exact ihh.2 x rfl

theorem runBest_mem (s : String) (edges : List ArweaveTxEdge) :
    ∀ cur n, runBest s cur edges = some n →
      (∃ e ∈ edges, e.node = n ∧ selfIdOf e.node = s) ∨ cur = some n := by
  induction edges with
  | nil => intro cur n h; exact Or.inr h
  | cons e es ih =>
      intro cur n h
      rw [runBest, List.foldl_cons] at h
      rcases ih (bestStep s cur e) n h with ⟨e', he', hn, hs'⟩ | hcur
      · exact Or.inl ⟨e', List.mem_cons_of_mem _ he', hn, hs'⟩
      · by_cases hsid : selfIdOf e.node = s
        · rw [bestStep.eq_def, if_pos hsid] at hcur
          cases cur with
          | none =>
              have hcur' : some e.node = some n := hcur
              cases hcur'
              exact Or.inl ⟨e, List.mem_cons_self e es, rfl, hsid⟩
          | some x =>
              have hcur' :
                  (if heightOf e.node > heightOf x then some e.node else some x) =
                    some n := hcur
              by_cases hht : heightOf e.node > heightOf x
              · rw [if_pos hht] at hcur'
                cases hcur'
                exact Or.inl ⟨e, List.mem_cons_self e es, rfl, hsid⟩
              · rw [if_neg hht] at hcur'
                exact Or.inr hcur'
        · rw [bestStep.eq_def, if_neg hsid] at hcur
          exact Or.inr hcur

theorem mem_aSet {α : Type} (m : AList α) (k : String) (v : α) :
    ∀ p ∈ aSet m k v, p ∈ m ∨ p = (k, v) := by
  induction m with
  | nil => intro p hp; simp [aSet] at hp; simp [hp]
  | cons hd tl ih =>
      obtain ⟨k', w⟩ := hd
      intro p hp
      by_cases h : k' = k
      · subst h
        rw [aSet, if_pos rfl] at hp
        rcases List.mem_cons.1 hp with rfl | htl
        · exact Or.inr rfl
        · exact Or.inl (List.mem_cons_of_mem _ htl)
      · rw [aSet, if_neg h] at hp
        rcases List.mem_cons.1 hp with rfl | htl
        · exact Or.inl (List.mem_cons_self _ _)
        · rcases ih p htl with hm | he
          · exact Or.inl (List.mem_cons_of_mem _ hm)
          · exact Or.inr he

theorem groupInv_groupStep (m : AList ArweaveTxNode) (e : ArweaveTxEdge)
    (h : GroupInv m) : GroupInv (groupStep m e) := by
  rw [groupStep]
  by_cases h0 : selfIdOf e.node = ""
  · rw [if_pos h0]; exact h
  · rw [if_neg h0]
    cases hcur : aGet m (selfIdOf e.node) with
    | none =>
        intro p hp
        rcases mem_aSet m (selfIdOf e.node) e.node p hp with hm | rfl
        · exact h p hm
        · exact ⟨rfl, h0⟩
    | some x =>
        show GroupInv
          (if heightOf e.node > heightOf x then aSet m (selfIdOf e.node) e.node else m)
        by_cases hht : heightOf e.node > heightOf x
        · rw [if_pos hht]
          intro p hp
          rcases mem_aSet m (selfIdOf e.node) e.node p hp with hm | rfl
          · exact h p hm
          · exact ⟨rfl, h0⟩
        · rw [if_neg hht]; exact h

theorem groupInv_foldl (edges : List ArweaveTxEdge) :
    ∀ m, GroupInv m → GroupInv (edges.foldl groupStep m) := by
  induction edges with
  | nil => intro m h; exact h
  | cons e es ih => intro m h; exact ih _ (groupInv_groupStep m e h)

theorem aKeys_nodup_groupStep (m : AList ArweaveTxNode) (e : ArweaveTxEdge)
    (h : (aKeys m).Nodup) : (aKeys (groupStep m e)).Nodup := by
  rw [groupStep]
  by_cases h0 : selfIdOf e.node = ""
  · rw [if_pos h0]; exact h
  · rw [if_neg h0]
    cases hcur : aGet m (selfIdOf e.node) with
    | none => exact aKeys_nodup_aSet _ _ _ h
    | some x =>
        show (aKeys
          (if heightOf e.node > heightOf x then aSet m (selfIdOf e.node) e.node else m)).Nodup
        by_cases hht : heightOf e.node > heightOf x
        · rw [if_pos hht]; exact aKeys_nodup_aSet _ _ _ h
        · rw [if_neg hht]; exact h

theorem aKeys_nodup_foldl (edges : List ArweaveTxEdge) :
    ∀ m, (aKeys m).Nodup → (aKeys (edges.foldl groupStep m)).Nodup := by
  induction edges with
  | nil => intro m h; exact h
  | cons e es ih => intro m h; exact ih _ (aKeys_nodup_groupStep m e h)

/-! ### The stable descending sort -/

theorem sortInsertDesc_perm (x : ArweaveTxNode) (l : List ArweaveTxNode) :
    List.Perm (sortInsertDesc x l) (x :: l) := by
  induction l with
  | nil => rfl
  | cons y ys ih =>
      rw [sortInsertDesc]
      by_cases h : heightOf y < heightOf x
      · rw [if_pos h]
      · rw [if_neg h]
        exact (ih.cons y).trans (List.Perm.swap x y ys)

theorem sortByHeightDesc_foldl_perm (l : List ArweaveTxNode) :
    ∀ acc, List.Perm (l.foldl (fun a x => sortInsertDesc x a) acc) (acc ++ l) := by
  induction l with
  | nil => intro acc; simp
  | cons x xs ih =>
      intro acc
      rw [List.foldl_cons]
      refine (ih (sortInsertDesc x acc)).trans ?_
      have h1 : List.Perm (sortInsertDesc x acc ++ xs) ((x :: acc) ++ xs) :=
        (sortInsertDesc_perm x acc).append_right xs
      refine h1.trans ?_
      simpa using List.perm_middle.symm

theorem sortByHeightDesc_perm (l : List ArweaveTxNode) :
    List.Perm (sortByHeightDesc l) l := by
  simpa using sortByHeightDesc_foldl_perm l []

theorem mem_sortInsertDesc (x z : ArweaveTxNode) (l : List ArweaveTxNode) :
    z ∈ sortInsertDesc x l ↔ z = x ∨ z ∈ l := by
  rw [(sortInsertDesc_perm x l).mem_iff]
  simp

theorem sortInsertDesc_pairwise (x : ArweaveTxNode) (l : List ArweaveTxNode)
    (h : l.Pairwise (fun a b => heightOf b ≤ heightOf a)) :
    (sortInsertDesc x l).Pairwise (fun a b => heightOf b ≤ heightOf a) := by
  induction l with
  | nil => simp [sortInsertDesc]
  | cons y ys ih =>
      rw [sortInsertDesc]
      obtain ⟨hy, hys⟩ := List.pairwise_cons.1 h
      by_cases hlt : heightOf y < heightOf x
      · rw [if_pos hlt]
        refine List.pairwise_cons.2 ⟨?_, h⟩
        intro z hz
        rcases List.mem_cons.1 hz with rfl | hzys
        · exact le_of_lt hlt
        · exact le_trans (hy z hzys) (le_of_lt hlt)
      · rw [if_neg hlt]
        refine List.pairwise_cons.2 ⟨?_, ih hys⟩
        intro z hz
        rcases (mem_sortInsertDesc x z ys).1 hz with rfl | hzys
        · exact not_lt.1 hlt
        · exact hy z hzys

theorem sortByHeightDesc_pairwise (l : List ArweaveTxNode) :
    (sortByHeightDesc l).Pairwise (fun a b => heightOf b ≤ heightOf a) := by
  have main : ∀ acc, acc.Pairwise (fun a b => heightOf b ≤ heightOf a) →
      (l.foldl (fun a x => sortInsertDesc x a) acc).Pairwise
        (fun a b => heightOf b ≤ heightOf a) := by
    induction l with
    | nil => intro acc h; exact h
    | cons x xs ih =>
        intro acc h
        rw [List.foldl_cons]
        exact ih _ (sortInsertDesc_pairwise x acc h)
  exact main [] (by simp)

/-! ### Counting winners per identity -/

theorem countP_values_zero (m : AList ArweaveTxNode) (v : String)
    (hinv : GroupInv m) (hzero : v ∉ aKeys m) :
    (m.map Prod.snd).countP (fun n => selfIdOf n == v) = 0 := by
  rw [List.countP_eq_zero]
  intro n hn
  obtain ⟨p, hp, hpn⟩ := List.mem_map.1 hn
  obtain ⟨hsid, _⟩ := hinv p hp
  have hkey : p.1 ∈ aKeys m := List.mem_map_of_mem Prod.fst hp
  have : selfIdOf n ≠ v := by
    rw [← hpn, hsid]
    rintro rfl
    exact hzero hkey
  simpa using this

theorem countP_values_eq (m : AList ArweaveTxNode) (v : String)
    (hnd : (aKeys m).Nodup) (hinv : GroupInv m) :
    (m.map Prod.snd).countP (fun n => selfIdOf n == v) =
      if v ∈ aKeys m then 1 else 0 := by
  induction m with
  | nil => simp [aKeys]
  | cons p tl ih =>
      obtain ⟨k, w⟩ := p
      obtain ⟨hsid, hk⟩ := hinv (k, w) (List.mem_cons_self _ _)
      have hnd1 : k ∉ aKeys tl :=
        (List.nodup_cons.1 (show (k :: aKeys tl).Nodup from hnd)).1
      have hnd2 : (aKeys tl).Nodup :=
        (List.nodup_cons.1 (show (k :: aKeys tl).Nodup from hnd)).2
      have hinv2 : GroupInv tl := fun q hq => hinv q (List.mem_cons_of_mem _ hq)
      rw [List.map_cons, List.countP_cons]
      by_cases hv : v = k
      · subst hv
        rw [ih hnd2 hinv2]
        have hmemhead : v ∈ aKeys ((v, w) :: tl) := by simp [aKeys]
        simp [hsid, hnd1, hmemhead]
      · rw [ih hnd2 hinv2]
        have hwv : ¬ selfIdOf w = v := by
          rw [hsid]; exact fun hx => hv hx.symm
        have hmem : (v ∈ k :: aKeys tl) ↔ v ∈ aKeys tl := by
          simp [hv]
        by_cases hvm : v ∈ aKeys tl
        · simp [aKeys] at hvm hmem ⊢
          simp [hvm, hwv, hv]
        · simp [aKeys] at hvm hmem ⊢
          simp [hvm, hwv, hv]

theorem mem_keys_groupFold (edges : List ArweaveTxEdge) (v : String) (hv : v ≠ "") :
    v ∈ aKeys (edges.foldl groupStep []) ↔ ∃ e ∈ edges, selfIdOf e.node = v := by
  rw [← aGet_isSome_iff]
  constructor
  · intro h
    rw [aGet_foldl_groupStep edges [] v hv] at h
    rcases runBest_isSome_src v edges none h with hc | hx
    · simp at hc
    · exact hx
  · intro h
    rw [aGet_foldl_groupStep edges [] v hv]
    exact runBest_isSome_of_mem v edges h none

/-- C1 (amended): the resolver emits exactly one record per distinct
non-falsy first Self-Id value occurring in the input (records whose
Self-Id is missing — or present with the empty-string value — are dropped,
not errored); each emitted record comes from the input and its height
(`null` block counted as −1) is maximal within its identity group; and the
output is sorted by descending height. -/
theorem groupLatestHeadsBySelfId_correct (edges : List ArweaveTxEdge) :
    (∀ v, v ≠ "" →
      (groupLatestHeadsBySelfId edges).countP (fun n => selfIdOf n == v) =
        if ∃ e ∈ edges, selfIdOf e.node = v then 1 else 0) ∧
    (∀ n ∈ groupLatestHeadsBySelfId edges, selfIdOf n ≠ "" ∧
      (∃ e ∈ edges, e.node = n) ∧
      ∀ e ∈ edges, selfIdOf e.node = selfIdOf n → heightOf e.node ≤ heightOf n) ∧
    (groupLatestHeadsBySelfId edges).Pairwise (fun a b => heightOf b ≤ heightOf a) := by
  have hnd : (aKeys (edges.foldl groupStep [])).Nodup :=
    aKeys_nodup_foldl edges [] (by simp [aKeys])
  have hinv : GroupInv (edges.foldl groupStep []) :=
    groupInv_foldl edges [] (by intro p hp; simp at hp)
  have hperm : List.Perm (groupLatestHeadsBySelfId edges)
      ((edges.foldl groupStep []).map Prod.snd) := by
    rw [groupLatestHeadsBySelfId]
    exact sortByHeightDesc_perm _
  refine ⟨?_, ?_, ?_⟩
  · intro v hv
    rw [hperm.countP_eq, countP_values_eq _ _ hnd hinv]
    by_cases hm : v ∈ aKeys (edges.foldl groupStep [])
    · rw [if_pos hm, if_pos ((mem_keys_groupFold edges v hv).1 hm)]
    · rw [if_neg hm, if_neg (fun hx => hm ((mem_keys_groupFold edges v hv).2 hx))]
  · intro n hn
    have hval : n ∈ (edges.foldl groupStep []).map Prod.snd := hperm.mem_iff.1 hn
    obtain ⟨p, hp, hpn⟩ := List.mem_map.1 hval
    obtain ⟨hsid, hkne⟩ := hinv p hp
    have hget : aGet (edges.foldl groupStep []) p.1 = some n := by
      have : (p.1, n) ∈ edges.foldl groupStep [] := by
        have : p = (p.1, n) := by
          rw [← hpn]
        exact this ▸ hp
      exact mem_aGet _ _ _ hnd this
    have hrb : runBest p.1 none edges = some n := by
      have h2 := aGet_foldl_groupStep edges [] p.1 hkne
      rw [hget] at h2
      simpa [aGet] using h2.symm
    have hsn : selfIdOf n = p.1 := hpn ▸ hsid
    refine ⟨hsn ▸ hkne, ?_, ?_⟩
    · rcases runBest_mem p.1 edges none n hrb with ⟨e, he, hen, _⟩ | habs
      · exact ⟨e, he, hen⟩
      · cases habs
    · intro e he hse
      exact (runBest_max p.1 edges none n hrb).1 e he (hsn ▸ hse)
  · rw [groupLatestHeadsBySelfId]
    exact sortByHeightDesc_pairwise _

/-- Witness for C1 at the spec's own two-record scenario. -/
theorem groupLatestHeadsBySelfId_correct_witness :
    (groupLatestHeadsBySelfId
        ([⟨"c1", ⟨"tx1", "o1", some ⟨10, 1⟩, [⟨"Self-Id", "S"⟩]⟩⟩,
          ⟨"c2", ⟨"tx2", "o1", some ⟨11, 2⟩, [⟨"Self-Id", "S"⟩]⟩⟩] :
          List ArweaveTxEdge)).countP (fun n => selfIdOf n == "S") =
      if ∃ e ∈ ([⟨"c1", ⟨"tx1", "o1", some ⟨10, 1⟩, [⟨"Self-Id", "S"⟩]⟩⟩,
          ⟨"c2", ⟨"tx2", "o1", some ⟨11, 2⟩, [⟨"Self-Id", "S"⟩]⟩⟩] :
          List ArweaveTxEdge), selfIdOf e.node = "S" then 1 else 0 :=
  (groupLatestHeadsBySelfId_correct _).1 "S" (by decide)

/-- Counterexample to C1 as stated: a record that does carry the Self-Id
tag, with value `""`, is dropped by the resolver, so there is no output
record for that distinct Self-Id tag value. -/
theorem groupLatestHeadsBySelfId_emptyValue_cex :
    tagFirst (tagsToMap [⟨"Self-Id", ""⟩]) "Self-Id" = some "" ∧
    groupLatestHeadsBySelfId
      [⟨"c1", ⟨"tx1", "ow", none, [⟨"Self-Id", ""⟩]⟩⟩] = [] := by
  decide

/-- C2: when exactly two records carry the same (non-falsy) identity `s`
and their heights are equal, the resolver's record for `s` is the one that
appears first in the input. The final conjunct records determinism: the
resolver is a pure function of the input list, so repeated runs coincide
definitionally. -/
theorem groupLatest_tieBreak (edges : List ArweaveTxEdge) (s : String)
    (e1 e2 : ArweaveTxEdge) (hs : s ≠ "")
    (hgroup : edges.filter (fun e => selfIdOf e.node == s) = [e1, e2])
    (hh : heightOf e1.node = heightOf e2.node) :
    (∀ n ∈ groupLatestHeadsBySelfId edges, selfIdOf n = s → n = e1.node) ∧
    e1.node ∈ groupLatestHeadsBySelfId edges ∧
    groupLatestHeadsBySelfId edges = groupLatestHeadsBySelfId edges := by
  have he1 : e1 ∈ edges.filter (fun e => selfIdOf e.node == s) := by
    rw [hgroup]; exact List.mem_cons_self _ _
  have he2 : e2 ∈ edges.filter (fun e => selfIdOf e.node == s) := by
    rw [hgroup]; exact List.mem_cons_of_mem _ (List.mem_cons_self _ _)
  have hsid1 : selfIdOf e1.node = s := by
    have := (List.mem_filter.1 he1).2
    simpa using this
  have hsid2 : selfIdOf e2.node = s := by
    have := (List.mem_filter.1 he2).2
    simpa using this
  have hb1 : bestStep s none e1 = some e1.node := by
    rw [bestStep.eq_def, if_pos hsid1]
  have hb2 : bestStep s (some e1.node) e2 = some e1.node := by
    rw [bestStep.eq_def, if_pos hsid2]
    have hnl : ¬ heightOf e2.node > heightOf e1.node := by
      rw [hh]; exact lt_irrefl _
    simp [hnl]
  have hget : aGet (edges.foldl groupStep []) s = some e1.node := by
    have h2 := aGet_foldl_groupStep edges [] s hs
    have h3 : runBest s none edges = some e1.node := by
      rw [runBest_filter s edges none, hgroup]
      show bestStep s (bestStep s none e1) e2 = some e1.node
      rw [hb1, hb2]
    simpa [aGet, h3] using h2
  have hnd : (aKeys (edges.foldl groupStep [])).Nodup :=
    aKeys_nodup_foldl edges [] (by simp [aKeys])
  have hinv : GroupInv (edges.foldl groupStep []) :=
    groupInv_foldl edges [] (by intro p hp; simp at hp)
  have hperm : List.Perm (groupLatestHeadsBySelfId edges)
      ((edges.foldl groupStep []).map Prod.snd) := by
    rw [groupLatestHeadsBySelfId]
    exact sortByHeightDesc_perm _
  refine ⟨?_, ?_, rfl⟩
  · intro n hn hsn
    have hval : n ∈ (edges.foldl groupStep []).map Prod.snd := hperm.mem_iff.1 hn
    obtain ⟨p, hp, hpn⟩ := List.mem_map.1 hval
    obtain ⟨hsid, hkne⟩ := hinv p hp
    have hp1 : p.1 = s := by rw [← hsid, hpn, hsn]
    have : aGet (edges.foldl groupStep []) s = some n := by
      refine mem_aGet _ _ _ hnd ?_
      have hps : p = (s, n) := by
        rw [← hp1, ← hpn]
      exact hps ▸ hp
    rw [hget] at this
    exact (Option.some.injEq _ _ ▸ this).symm ▸ rfl
  · have : (s, e1.node) ∈ edges.foldl groupStep [] := aGet_mem _ _ _ hget
    exact hperm.mem_iff.2 (List.mem_map_of_mem Prod.snd this)

/-- Witness for C2: two same-identity records at equal height 10; the
resolver keeps the first. -/
theorem groupLatest_tieBreak_witness :
    (∀ n ∈ groupLatestHeadsBySelfId
        ([⟨"c1", ⟨"tx1", "o1", some ⟨10, 1⟩, [⟨"Self-Id", "S"⟩]⟩⟩,
          ⟨"c2", ⟨"tx2", "o2", some ⟨10, 2⟩, [⟨"Self-Id", "S"⟩]⟩⟩] :
          List ArweaveTxEdge),
      selfIdOf n = "S" → n = ⟨"tx1", "o1", some ⟨10, 1⟩, [⟨"Self-Id", "S"⟩]⟩) ∧
    (⟨"tx1", "o1", some ⟨10, 1⟩, [⟨"Self-Id", "S"⟩]⟩ : ArweaveTxNode) ∈
      groupLatestHeadsBySelfId
        ([⟨"c1", ⟨"tx1", "o1", some ⟨10, 1⟩, [⟨"Self-Id", "S"⟩]⟩⟩,
          ⟨"c2", ⟨"tx2", "o2", some ⟨10, 2⟩, [⟨"Self-Id", "S"⟩]⟩⟩] :
          List ArweaveTxEdge) ∧
    groupLatestHeadsBySelfId
        ([⟨"c1", ⟨"tx1", "o1", some ⟨10, 1⟩, [⟨"Self-Id", "S"⟩]⟩⟩,
          ⟨"c2", ⟨"tx2", "o2", some ⟨10, 2⟩, [⟨"Self-Id", "S"⟩]⟩⟩] :
          List ArweaveTxEdge) =
      groupLatestHeadsBySelfId
        ([⟨"c1", ⟨"tx1", "o1", some ⟨10, 1⟩, [⟨"Self-Id", "S"⟩]⟩⟩,
          ⟨"c2", ⟨"tx2", "o2", some ⟨10, 2⟩, [⟨"Self-Id", "S"⟩]⟩⟩] :
          List ArweaveTxEdge) :=
  groupLatest_tieBreak _ "S"
    ⟨"c1", ⟨"tx1", "o1", some ⟨10, 1⟩, [⟨"Self-Id", "S"⟩]⟩⟩
    ⟨"c2", ⟨"tx2", "o2", some ⟨10, 2⟩, [⟨"Self-Id", "S"⟩]⟩⟩
    (by decide) (by decide) (by decide)

theorem ideasScanAux_sound (items : List Json) :
    ∀ errs ids, (ideasScanAux errs ids items).1 = [] →
      errs = [] ∧ (∀ it ∈ items, ideaItemValid it = true) ∧
      (validIdeaIds items).Nodup ∧ ∀ id ∈ validIdeaIds items, id ∉ ids := by
  induction items with
  | nil =>
      intro errs ids h
      exact ⟨h, by simp, by simp [validIdeaIds], by simp [validIdeaIds]⟩
  | cons it rest ih =>
      intro errs ids h
      rw [ideasScanAux] at h
      by_cases hv : ideaItemValid it
      · rw [if_pos hv] at h
        by_cases hc : ids.contains ((getStr? it "idea_id").getD "")
        · rw [if_pos hc] at h
          have := (ih _ _ h).1
          simp at this
        · rw [if_neg hc] at h
          obtain ⟨he, hall, hnd, hnotin⟩ := ih _ _ h
          have hxid : (getStr? it "idea_id").getD "" ∉ ids := by
            intro hm
            exact hc (List.elem_eq_true_of_mem hm)
          have hvl : validIdeaIds (it :: rest) =
              (getStr? it "idea_id").getD "" :: validIdeaIds rest := by
            simp [validIdeaIds, hv]
          refine ⟨he, ?_, ?_, ?_⟩
          · intro x hx
            rcases List.mem_cons.1 hx with rfl | hxr
            · exact hv
            · exact hall x hxr
          · rw [hvl]
            refine List.nodup_cons.2 ⟨?_, hnd⟩
            intro hmem
            have := hnotin _ hmem
            simp at this
          · intro id hid
            rw [hvl] at hid
            rcases List.mem_cons.1 hid with rfl | hidr
            · exact hxid
            · intro hm
              exact (hnotin _ hidr) (List.mem_append_left _ hm)
      · rw [if_neg hv] at h
        have := (ih _ _ h).1
        simp at this

theorem edgesScanAux_acc_ne (ids : List String) (es : List Json) :
    ∀ errs, errs ≠ [] → edgesScanAux ids errs es ≠ [] := by
  induction es with
  | nil => intro errs h; simpa [edgesScanAux] using h
  | cons e rest ih =>
      intro errs h
      rw [edgesScanAux]
      by_cases hrec : jsFalsy e || !jsTypeofObject e
      · rw [if_pos hrec]
        exact ih _ (by simp [h])
      · rw [if_neg hrec]
        refine ih _ ?_
        by_cases h1 : !(memStrOpt ids (getStr? e "from_idea_id")) ||
            !(memStrOpt ids (getStr? e "to_idea_id")) <;>
          by_cases h2 : !(memStrOpt EDGE_TYPES (getStr? e "type")) <;>
            simp [h1, h2, h]

theorem edgesScanAux_bad (ids : List String) (es : List Json) (edge : Json)
    (hmem : edge ∈ es)
    (hbad : memStrOpt ids (getStr? edge "from_idea_id") = false ∨
      memStrOpt ids (getStr? edge "to_idea_id") = false) :
    ∀ errs, edgesScanAux ids errs es ≠ [] := by
  induction es with
  | nil => simp at hmem
  | cons e rest ih =>
      intro errs
      rw [edgesScanAux]
      rcases List.mem_cons.1 hmem with rfl | hr
      · by_cases hrec : jsFalsy edge || !jsTypeofObject edge
        · rw [if_pos hrec]
          exact edgesScanAux_acc_ne ids rest _ (by simp)
        · rw [if_neg hrec]
          have h1 : (!(memStrOpt ids (getStr? edge "from_idea_id")) ||
              !(memStrOpt ids (getStr? edge "to_idea_id"))) = true := by
            rcases hbad with hb | hb <;> simp [hb]
          rw [if_pos h1]
          refine edgesScanAux_acc_ne ids rest _ ?_
          by_cases h2 : !(memStrOpt EDGE_TYPES (getStr? edge "type")) <;> simp [h2]
      · by_cases hrec : jsFalsy e || !jsTypeofObject e
        · rw [if_pos hrec]
          exact ih hr _
        · rw [if_neg hrec]
          exact ih hr _

theorem validateSnapshot_accepted (p : Json)
    (h : validateSnapshotPayload p = []) :
    ∃ xs, getArr? p "ideas" = some xs ∧ xs ≠ [] ∧
      (∀ it ∈ xs, ideaItemValid it = true) ∧ (validIdeaIds xs).Nodup := by
  rw [validateSnapshotPayload] at h
  cases hArr : getArr? p "ideas" with
  | none =>
      rw [hArr] at h
      simp at h
  | some xs =>
      rw [hArr] at h
      obtain ⟨hAB, _⟩ := List.append_eq_nil.1 h
      obtain ⟨hA, hB⟩ := List.append_eq_nil.1 hAB
      have hscan : (ideasScan xs).1 = [] := hB
      obtain ⟨_, hA2⟩ := List.append_eq_nil.1 hA
      have hA4' : (if xs.isEmpty then ["SelfSnapshot.ideas missing/empty"] else []) =
          ([] : List String) := hA2
      have hne : ¬ xs.isEmpty := by
        intro hemp
        rw [if_pos hemp] at hA4'
        cases hA4'
      obtain ⟨_, hall, hnd, _⟩ := ideasScanAux_sound xs [] [] hscan
      exact ⟨xs, rfl, fun hx => hne (by simp [hx]), hall, hnd⟩

theorem parseSelfSnapshot_ok (q : Json) (v : SelfSnapshot)
    (hq : parseSelfSnapshot q = .ok v) :
    v.ideas ≠ [] ∧
    v.edges = (getArr? q "edges").map (fun es => es.filterMap parseSnapshotEdge) := by
  rw [parseSelfSnapshot.eq_def] at hq
  split at hq
  · cases hq
  · split at hq
    · cases hq
    · split at hq
      · cases hq
      · split at hq
        · cases hq
        · split at hq
          · cases hq
          · cases hq
            rename_i hne
            constructor
            · intro hnil
              apply hne
              rw [List.isEmpty_iff]
              exact hnil
            · rfl

/-- C6 (amended): the strict validator accepts a snapshot only when its
ideas array is a non-empty list of well-shaped entries with pairwise
distinct `idea_id`s; the lenient parser guarantees non-emptiness of the
parsed ideas but does NOT enforce uniqueness. -/
theorem snapshot_uniqueness_paths (p q : Json) (v : SelfSnapshot)
    (hp : validateSnapshotPayload p = [])
    (hq : parseSelfSnapshot q = .ok v) :
    (∃ xs, getArr? p "ideas" = some xs ∧ xs ≠ [] ∧ (validIdeaIds xs).Nodup) ∧
    v.ideas ≠ [] := by
  obtain ⟨xs, harr, hne, _, hnd⟩ := validateSnapshot_accepted p hp
  exact ⟨⟨xs, harr, hne, hnd⟩, (parseSelfSnapshot_ok q v hq).1⟩

/-- Witness for C6 at a concrete accepted snapshot. -/
theorem snapshot_uniqueness_paths_witness :
    (∃ xs, getArr? goodSnapJson "ideas" = some xs ∧ xs ≠ [] ∧
      (validIdeaIds xs).Nodup) ∧
    (SelfSnapshot.ideas ⟨"s", none, [⟨"a", "t"⟩], none, none, none⟩) ≠ [] :=
  snapshot_uniqueness_paths goodSnapJson goodSnapJson
    ⟨"s", none, [⟨"a", "t"⟩], none, none, none⟩ rfl rfl

/-- Counterexample to C6 as stated: the lenient snapshot parser
(`parseSelfSnapshot`, one of the claim's cited validation paths) accepts a
snapshot whose ideas list repeats `idea_id` "a"; only the strict validator
rejects it. -/
theorem snapshot_dup_cex :
    parseSelfSnapshot dupSnapJson =
      .ok ⟨"s", none, [⟨"a", "t1"⟩, ⟨"a", "t2"⟩], none, none, none⟩ ∧
    validateSnapshotPayload dupSnapJson = ["Duplicate idea_id in snapshot: a"] :=
  ⟨rfl, rfl⟩

/-- C5 (amended): an edge whose `from_idea_id` or `to_idea_id` is not among
the declared idea ids makes the strict validator report an error,
while the lenient parser neither rejects the snapshot nor drops such an
edge: every well-formed edge entry is retained in the parsed result
irrespective of whether its endpoints are declared. -/
theorem snapshotEdge_strict_vs_lenient
    (p : Json) (es : List Json) (edge : Json)
    (hedges : getArr? p "edges" = some es) (hmem : edge ∈ es)
    (hbad : memStrOpt (match getArr? p "ideas" with
        | some xs => (ideasScan xs).2
        | none => []) (getStr? edge "from_idea_id") = false ∨
      memStrOpt (match getArr? p "ideas" with
        | some xs => (ideasScan xs).2
        | none => []) (getStr? edge "to_idea_id") = false)
    (q : Json) (es2 : List Json) (e2 : Json) (v : SelfSnapshot) (se : SnapEdge)
    (hq : parseSelfSnapshot q = .ok v) (hes2 : getArr? q "edges" = some es2)
    (he2 : e2 ∈ es2) (hpe : parseSnapshotEdge e2 = some se) :
    validateSnapshotPayload p ≠ [] ∧ ∃ l, v.edges = some l ∧ se ∈ l := by
  constructor
  · rw [validateSnapshotPayload]
    intro hnil
    obtain ⟨_, hC⟩ := List.append_eq_nil.1 hnil
    rw [hedges] at hC
    exact edgesScanAux_bad _ es edge hmem hbad [] hC
  · have hedgesv := (parseSelfSnapshot_ok q v hq).2
    rw [hes2] at hedgesv
    exact ⟨es2.filterMap parseSnapshotEdge, hedgesv,
      List.mem_filterMap.2 ⟨e2, he2, hpe⟩⟩

/-- Witness for C5 at the dangling-edge snapshot, used for both paths. -/
theorem snapshotEdge_strict_vs_lenient_witness :
    validateSnapshotPayload danglingEdgeSnap ≠ [] ∧
    ∃ l, (SelfSnapshot.edges
        ⟨"s", none, [⟨"a", "t"⟩], some [⟨"a", "b", "supports"⟩], none, none⟩) =
          some l ∧
      (⟨"a", "b", "supports"⟩ : SnapEdge) ∈ l :=
  snapshotEdge_strict_vs_lenient danglingEdgeSnap
    [.obj [("from_idea_id", .str "a"), ("to_idea_id", .str "b"),
           ("type", .str "supports")]]
    (.obj [("from_idea_id", .str "a"), ("to_idea_id", .str "b"),
           ("type", .str "supports")])
    rfl (List.mem_cons_self _ _) (Or.inr rfl)
    danglingEdgeSnap
    [.obj [("from_idea_id", .str "a"), ("to_idea_id", .str "b"),
           ("type", .str "supports")]]
    (.obj [("from_idea_id", .str "a"), ("to_idea_id", .str "b"),
           ("type", .str "supports")])
    ⟨"s", none, [⟨"a", "t"⟩], some [⟨"a", "b", "supports"⟩], none, none⟩
    ⟨"a", "b", "supports"⟩
    rfl rfl (List.mem_cons_self _ _) rfl

/-- Counterexample to C5 as stated: the lenient parse of the dangling-edge
snapshot RETAINS the offending edge (`a → b` with `b` undeclared) instead
of dropping it; the strict validator meanwhile reports the error. -/
theorem snapshot_danglingEdge_cex :
    validateSnapshotPayload danglingEdgeSnap = ["Edge references unknown idea ids"] ∧
    parseSelfSnapshot danglingEdgeSnap =
      .ok ⟨"s", none, [⟨"a", "t"⟩], some [⟨"a", "b", "supports"⟩], none, none⟩ :=
  ⟨rfl, rfl⟩

/-- C7: when every endpoint fails, the query client makes exactly one
attempt per endpoint, in order, and the raised error is the one produced
by the last endpoint's attempt. -/
theorem graphqlRequest_exhaustion {T : Type} (world : String → GqlOutcome T)
    (init : List String) (last : String)
    (hfail : ∀ e ∈ init ++ [last], ∃ m, attemptGql e (world e) = (.error m : Except String T)) :
    ∃ m, attemptGql last (world last) = (.error m : Except String T) ∧
      graphqlRequest world (init ++ [last]) = (.error m, (init ++ [last]).length) := by
  have main : ∀ (init : List String) (lastErr : Option String),
      (∀ e ∈ init ++ [last], ∃ m, attemptGql e (world e) = (.error m : Except String T)) →
      ∃ m, attemptGql last (world last) = (.error m : Except String T) ∧
        graphqlRequestGo world lastErr (init ++ [last]) = (.error m, init.length + 1) := by
    intro init
    induction init with
    | nil =>
        intro lastErr hf
        obtain ⟨m, hm⟩ := hf last (by simp)
        refine ⟨m, hm, ?_⟩
        simp only [List.nil_append, graphqlRequestGo, hm]
        rfl
    | cons e init ih =>
        intro lastErr hf
        obtain ⟨m0, hm0⟩ := hf e (by simp)
        obtain ⟨m, hm, hgo⟩ := ih (some m0) (fun x hx => hf x (List.mem_cons_of_mem e hx))
        refine ⟨m, hm, ?_⟩
        have hstep : graphqlRequestGo world lastErr ((e :: init) ++ [last]) =
            ((graphqlRequestGo world (some m0) (init ++ [last])).1,
             (graphqlRequestGo world (some m0) (init ++ [last])).2 + 1) := by
          rw [List.cons_append, graphqlRequestGo, hm0]
        rw [hstep, hgo]
        simp
  obtain ⟨m, hm, hgo⟩ := main init none hfail
  refine ⟨m, hm, ?_⟩
  rw [graphqlRequest, hgo]
  simp

/-- Witness for C7: two endpoints, both unreachable. -/
theorem graphqlRequest_exhaustion_witness :
    ∃ m, attemptGql (T := TransactionsData) "e2"
        ((fun e => GqlOutcome.netError ("down: " ++ e)) "e2") = .error m ∧
      graphqlRequest (T := TransactionsData)
          (fun e => GqlOutcome.netError ("down: " ++ e)) (["e1"] ++ ["e2"]) =
        (.error m, (["e1"] ++ ["e2"]).length) :=
  graphqlRequest_exhaustion (T := TransactionsData)
    (fun e => GqlOutcome.netError ("down: " ++ e)) ["e1"] "e2"
    (fun e _ => ⟨"down: " ++ e, rfl⟩)

/-- C8: with gateway 1 failing and gateway 2 succeeding, the fetch client
makes exactly 2 attempts and returns gateway 2's JSON (later gateways are
never consulted); and for the query client, a well-formed envelope whose
`data` is present — even with zero edge records — is a success after a
single attempt, not a failure triggering fallback. -/
theorem fetch_shortCircuit
    (world : String → GatewayOutcome) (g1 g2 : String) (rest : List String)
    (m : String) (j : Json)
    (h1 : attemptFetch g1 (world g1) = .error m)
    (h2 : attemptFetch g2 (world g2) = .ok j)
    (qworld : String → GqlOutcome TransactionsData) (e1 : String)
    (more : List String)
    (henv : qworld e1 = .envelope [] (some ⟨[]⟩)) :
    fetchTxJson world (g1 :: g2 :: rest) = (.ok j, 2) ∧
    graphqlRequest qworld (e1 :: more) = (.ok ⟨[]⟩, 1) := by
  constructor
  · simp [fetchTxJson, fetchTxJsonGo, h1, h2]
  · simp [graphqlRequest, graphqlRequestGo, henv, attemptGql]

/-- Witness for C8 mirroring the repository's own fetchTxJson test:
gw1 throws, gw2 answers `{ok: true}`. -/
theorem fetch_shortCircuit_witness :
    fetchTxJson
        (fun g => if g = "https://gw1" then GatewayOutcome.netError "network down"
                  else GatewayOutcome.bodyJson (.obj [("ok", .bool true)]))
        ("https://gw1" :: "https://gw2" :: []) =
      (.ok (.obj [("ok", .bool true)]), 2) ∧
    graphqlRequest
        ((fun _ => GqlOutcome.envelope [] (some (TransactionsData.mk []))) :
          String → GqlOutcome TransactionsData)
        ("e1" :: ["e2"]) = (.ok (TransactionsData.mk []), 1) :=
  fetch_shortCircuit
    (fun g => if g = "https://gw1" then GatewayOutcome.netError "network down"
              else GatewayOutcome.bodyJson (.obj [("ok", .bool true)]))
    "https://gw1" "https://gw2" [] "network down" (.obj [("ok", .bool true)])
    rfl rfl
    (fun _ => GqlOutcome.envelope [] (some (TransactionsData.mk []))) "e1" ["e2"] rfl

/-- C4 (amended): a JSON parse failure after a successful gateway response
is NOT a hard failure: it is caught like a transport error, recorded as
the running `lastErr`, and the remaining gateways are consulted; only when
it happens at the final gateway is it what the exhausted loop raises. -/
theorem fetch_parseFailure_fallsThrough
    (world : String → GatewayOutcome) (g1 : String) (rest : List String)
    (m : String) (h1 : world g1 = .bodyUnparseable m) :
    fetchTxJson world (g1 :: rest) =
      ((fetchTxJsonGo world (some m) rest).1,
       (fetchTxJsonGo world (some m) rest).2 + 1) ∧
    fetchTxJson world [g1] = (.error m, 1) := by
  constructor
  · simp [fetchTxJson, fetchTxJsonGo, attemptFetch, h1]
  · simp [fetchTxJson, fetchTxJsonGo, attemptFetch, h1]

/-- Witness for C4's amended behavior: an unparseable body at gateway 1. -/
theorem fetch_parseFailure_fallsThrough_witness :
    fetchTxJson (fun _ => GatewayOutcome.bodyUnparseable "Unexpected token")
        ("gw1" :: ["gw2"]) =
      ((fetchTxJsonGo (fun _ => GatewayOutcome.bodyUnparseable "Unexpected token")
          (some "Unexpected token") ["gw2"]).1,
       (fetchTxJsonGo (fun _ => GatewayOutcome.bodyUnparseable "Unexpected token")
          (some "Unexpected token") ["gw2"]).2 + 1) ∧
    fetchTxJson (fun _ => GatewayOutcome.bodyUnparseable "Unexpected token")
        ["gw1"] = (.error "Unexpected token", 1) :=
  fetch_parseFailure_fallsThrough
    (fun _ => GatewayOutcome.bodyUnparseable "Unexpected token")
    "gw1" ["gw2"] "Unexpected token" rfl

/-- Counterexample to C4 as stated: gateway 1 responds 200 with an
unparseable body; the claim says the fetch raises immediately and gateway
2 is never tried — but the loop catches the parse failure, retries, and
returns gateway 2's JSON after 2 attempts. -/
theorem fetch_parseFailure_cex :
    fetchTxJson
        (fun g => if g = "gw1" then GatewayOutcome.bodyUnparseable "SyntaxError"
                  else GatewayOutcome.bodyJson (.obj [("ok", .bool true)]))
        ["gw1", "gw2"] = (.ok (.obj [("ok", .bool true)]), 2) := rfl

/-- C3 (amended): when the failing idea is one `verifyTx` can report on —
here its tx is absent from the ledger index — the failure is recorded in
that idea's own report and does not abort the remaining idea checks: the
walk returns a report with `ok = false`, exactly one idea report carrying
an error, and the other idea report with `ok = true`. (When the idea's
payload fetch itself throws, `verifySelf` propagates the exception instead
— see the counterexample.) -/
theorem verifySelf_ideaIsolation :
    verifySelf chainWorldMissingIdea "self-1" = .ok
      { ok := false, self_id := "self-1", discoverable := true,
        head_tx := some "HEAD", snapshot_tx := some "SNAP", idea_count := 2,
        idea_reports :=
          [{ idea_id := some "i1", tx_id := "T1", ok := false,
             errors := ["Tx not found: T1"], warnings := [] },
           { idea_id := some "i2", tx_id := "T2", ok := true,
             errors := [], warnings := [] }],
        errors := ["Idea i1: Tx not found: T1"], warnings := [] } ∧
    (([{ idea_id := some "i1", tx_id := "T1", ok := false,
         errors := ["Tx not found: T1"], warnings := [] },
       { idea_id := some "i2", tx_id := "T2", ok := true,
         errors := [], warnings := [] }] : List IdeaReport).filter
      (fun r => !r.errors.isEmpty)).length = 1 :=
  ⟨rfl, rfl⟩

/-- Counterexample to C3 as stated: with idea tx `T1` indexed but its
payload unfetchable (every gateway fails), `verifyTx` throws inside the
idea loop and `verifySelf` aborts with the exception — no report is
returned at all, and idea `T2` is never checked. -/
theorem verifySelf_fetchThrow_cex :
    verifySelf chainWorldFetchThrow "self-1" = .error "Failed to fetch tx T1" :=
  rfl
